import Mathlib

/-!
Verification of the fb-post-scraper crawl orchestration and extraction
pipeline.  The definitions below are a shallow embedding of the TypeScript
source: `handlePageFunction` and `initVideoPage` from `src/main.ts`
(the current variant, lines 709-838), `getPostContent`,
`getPostInfoFromScript` and `getVideoUrl` from the page module, and the
record types from `definitions.ts`.  Page state that the code reads from
the browser (selector presence, element attributes) is represented by an
explicit environment record; everything else follows the source line by
line.
-/

namespace FbScraper

/-! ## JavaScript string primitives

The source relies on `String.prototype.includes`, `indexOf`, `substring`,
`split` and single-occurrence `replace`.  We embed them as structurally
recursive functions over the character list of the string, so every
definition evaluates inside the kernel. -/

/-- Whether `pat` is a leading segment of `l` (char-list version of a
JavaScript `startsWith` check, used to search for substrings). -/
def leadsList : List Char → List Char → Bool
  | [], _ => true
  | _ :: _, [] => false
  | a :: as, b :: bs => a == b && leadsList as bs

/-- Split `l` at the first occurrence of `pat`: returns the part before and
the part after (the occurrence removed), or `none` when `pat` does not
occur.  This is the primitive behind `includes`, `indexOf`, `substring`
and first-occurrence `replace`. -/
def breakOn (pat : List Char) : List Char → Option (List Char × List Char)
  | [] => if pat.isEmpty then some ([], []) else none
  | c :: cs =>
    if leadsList pat (c :: cs) then some ([], (c :: cs).drop pat.length)
    else match breakOn pat cs with
      | some (pre, post) => some (c :: pre, post)
      | none => none

/-- JavaScript `s.includes(pat)`. -/
def jsIncludes (s pat : String) : Bool := (breakOn pat.data s.data).isSome

/-- JavaScript `s || null` applied to a string: the empty string is falsy
and becomes `null` (`none`). -/
def jsOrNull (s : String) : Option String :=
  if s.data.isEmpty then none else some s

/-- JavaScript truthiness of a nullable string: `null` and `""` are falsy. -/
def jsTruthy : Option String → Bool
  | none => false
  | some s => !s.data.isEmpty

/-- First-occurrence `s.replace(pat, sub)` (JavaScript `replace` with a
string pattern replaces only the first occurrence). -/
def replaceFirst (s pat sub : String) : String :=
  match breakOn pat.data s.data with
  | some (pre, post) => ⟨pre ++ sub.data ++ post⟩
  | none => s

/-- Lowercase one ASCII character, as `String.prototype.toLowerCase` does
for the ASCII range the reaction-type names live in. -/
def lowerChar (c : Char) : Char :=
  if 65 ≤ c.toNat && c.toNat ≤ 90 then Char.ofNat (c.toNat + 32) else c

/-- JavaScript `s.toLowerCase()` restricted to ASCII. -/
def lowerStr (s : String) : String := ⟨s.data.map lowerChar⟩

/-! ## Data model (`definitions.ts`) -/

/-- `FbImage`: one lightbox image of the post. -/
structure FbImage where
  link : String
  imageUrl : String
deriving Repr, DecidableEq

/-- `FbVideo`: one resolved video reference (`postUrl` of the sub-page plus
the playable URL, which the code stores as `null` when no video was
found). -/
structure FbVideo where
  postUrl : String
  videoUrl : Option String
deriving Repr, DecidableEq

/-- `FbPostLink`: one deduplicated outbound link with optional metadata. -/
structure FbPostLink where
  url : String
  thumbUrl : Option String
  domain : Option String
  title : Option String
  text : Option String
deriving Repr, DecidableEq

/-- The stats object produced by `getPostInfoFromScript`.  The breakdown is
a JavaScript object mapping lowercase reaction-type names to counts; we
embed it as an association list in insertion order. -/
structure PostStats where
  comments : Nat
  reactions : Nat
  shares : Nat
  reactionsBreakdown : List (String × Nat)
deriving Repr, DecidableEq

/-- `Partial<FbPost>`: the record stored in the aggregation map.  Every
field is optional because the map holds partial records (`map.write`
stores whatever the extraction produced, and the video merge may run
against a record created from `undefined`). -/
structure PostRec where
  name : Option String
  logoUrl : Option String
  postDate : Option String
  postText : Option String
  postUrl : Option String
  postStats : Option PostStats
  postImages : Option (List FbImage)
  postLinks : Option (List FbPostLink)
  videoPostUrl : Option String
  postVideos : Option (List FbVideo)
deriving Repr, DecidableEq

/-- The all-absent record: the spread of `undefined` in JavaScript. -/
def PostRec.empty : PostRec :=
  ⟨none, none, none, none, none, none, none, none, none, none⟩

/-! ## Error taxonomy

`InfoError` (from `./error`) carries a `meta.namespace` string; any other
thrown value is an unclassified plain error.  The handler only ever
inspects `instanceof InfoError` and `meta.namespace`, so this split is all
the embedding needs. -/

/-- A failure raised during page handling: either a classified `InfoError`
with its namespace string, or an unclassified plain `Error`. -/
inductive Err where
  | info (ns : String) (message : String)
  | plain (message : String)
deriving Repr, DecidableEq

/-- The namespace of a classified failure, `none` for a plain error. -/
def Err.nsOf : Err → Option String
  | .info ns _ => some ns
  | .plain _ => none

/-! ## Aggregation store

Modelled from the spec: the store implementation (`statePersistor` in
`./storage`) is not part of the provided sources; §4.4 of the spec states
the contract of its two entry points — `write(authorId, record)` inserts
or wholesale-replaces the record for `authorId`, and
`append(authorId, mergeFn)` reads the current record (or none), applies
`mergeFn`, and stores the result.  We embed the map as an association list
keyed by author identity. -/

/-- The aggregation store: author identity to partial post record. -/
def Store := List (String × PostRec)
deriving instance Repr, DecidableEq for Store

/-- Modelled from the spec: `map.write` — insert or wholesale-replace the
record stored under key `k`. -/
def Store.write : Store → String → PostRec → Store
  | [], k, v => [(k, v)]
  | (k₂, v₂) :: rest, k, v =>
    if k₂ = k then (k, v) :: rest else (k₂, v₂) :: Store.write rest k v

/-- Read the record stored for `k`, if any. -/
def Store.lookup : Store → String → Option PostRec
  | [], _ => none
  | (k₂, v₂) :: rest, k => if k₂ = k then some v₂ else Store.lookup rest k

/-- Modelled from the spec: `map.append` — read-modify-write for one
author. -/
def Store.append (s : Store) (k : String) (f : Option PostRec → PostRec) : Store :=
  s.write k (f (s.lookup k))

/-- The author identities currently present in the store. -/
def Store.keys (s : Store) : List String := s.map Prod.fst

/-! ## The VIDEO merge function (`main.ts` lines 802-815)

```
await map.append(username, async (value) => {
    if (value) { delete value.videoPostUrl; }
    return { ...value,
             postVideos: [ { postUrl: request.url, videoUrl: videoUrl } ] };
});
```
-/

/-- The merge closure passed to `map.append` by the VIDEO branch:
spread the prior record (if any) with its `videoPostUrl` deleted, and
replace `postVideos` with the single new reference. -/
def mergeVideo (reqUrl : String) (videoUrl : Option String) :
    Option PostRec → PostRec
  | some v => { v with videoPostUrl := none,
                       postVideos := some [⟨reqUrl, videoUrl⟩] }
  | none => { PostRec.empty with
                postVideos := some [⟨reqUrl, videoUrl⟩] }

/-! ## Stats extraction (`getPostInfoFromScript`, page module lines 26-60)

The function filters the page inline scripts down to those mentioning the
canonical URL and joins them into one text, then runs three `matchAll`
patterns over it.  Regex matching itself happens in the JavaScript engine;
the environment below carries the filtered text together with the lists of
first-capture-group strings each pattern produced.  The `eval` of the
JSON-like reactions fragment is the one host-language feature that cannot
be embedded, so it is a parameter: `none` stands for a throwing `eval`. -/

/-- One element of the `top_reactions` edge array: the code reads
`get(node, ['node', 'reaction_type'], '')` and `node.reaction_count`; we
flatten the one-level `node` nesting. -/
structure ReactionNode where
  reaction_type : String
  reaction_count : Nat
deriving Repr, DecidableEq

/-- The inline-script data visible to `getPostInfoFromScript`: the joined
filtered script text plus, for each of the three counting regexes, the
numeric strings its matches captured. -/
structure ScriptEnv where
  html : String
  commentMatches : List String
  reactionMatches : List String
  shareMatches : List String
deriving Repr

/-- JavaScript unary plus on a captured `\d+` group: parse the digit
string as a number. -/
def jsToNum (s : String) : Nat := s.toNat?.getD 0

/-- `maxFromMatches` (page module lines 40-41):
`[...matches].reduce((count, [, value]) => (+value > count ? +value : count), 0)`. -/
def maxFromMatches (ms : List String) : Nat :=
  ms.foldl (fun count value => if jsToNum value > count then jsToNum value else count) 0

/-- The fragment handed to `eval`:
`html.split('top_reactions:{edges:')?.[1].split('}]}')?.[0]` with `"}]"`
appended.  When the first marker is absent, `?.[1]` is `undefined` and the
chained `.split` throws (caught by the surrounding `try`), which we encode
as `none`. -/
def extractFragment (html : String) : Option String :=
  match breakOn "top_reactions:\x7bedges:".data html.data with
  | none => none
  | some (_, after) =>
    let piece1 : List Char :=
      match breakOn "top_reactions:\x7bedges:".data after with
      | some (pre, _) => pre
      | none => after
    let piece0 : List Char :=
      match breakOn "\x7d]\x7d".data piece1 with
      | some (pre, _) => pre
      | none => piece1
    some ⟨piece0 ++ "\x7d]".data⟩

/-- The `reactionsBreakdown` IIFE (lines 43-49): evaluate the fragment,
fall back to the empty array when the markers are missing or the `eval`
throws. -/
def reactionsBreakdownOf (evalJs : String → Option (List ReactionNode))
    (html : String) : List ReactionNode :=
  match extractFragment html with
  | none => []
  | some frag =>
    match evalJs frag with
    | none => []
    | some nodes => nodes

/-- Assignment `out[key] = value` on a JavaScript object embedded as an
association list: overwrite an existing binding in place, otherwise add a
new one at the end. -/
def insertAssoc : List (String × Nat) → String → Nat → List (String × Nat)
  | [], k, v => [(k, v)]
  | (k₂, v₂) :: rest, k, v =>
    if k₂ = k then (k, v) :: rest else (k₂, v₂) :: insertAssoc rest k v

/-- Property read `out[key]` on the embedded object. -/
def lookupAssoc : List (String × Nat) → String → Option Nat
  | [], _ => none
  | (k₂, v₂) :: rest, k => if k₂ = k then some v₂ else lookupAssoc rest k

/-- The `.reduce` turning the evaluated edge array into the breakdown
object: `out[name.toLowerCase()] = node.reaction_count`. -/
def breakdownMap (nodes : List ReactionNode) : List (String × Nat) :=
  nodes.foldl (fun out node => insertAssoc out (lowerStr node.reaction_type) node.reaction_count) []

/-- `getPostInfoFromScript` (lines 26-60): the returned stats object. -/
def getPostInfoFromScript (evalJs : String → Option (List ReactionNode))
    (senv : ScriptEnv) : PostStats :=
  { comments := maxFromMatches senv.commentMatches
    reactions := maxFromMatches senv.reactionMatches
    shares := maxFromMatches senv.shareMatches
    reactionsBreakdown := breakdownMap (reactionsBreakdownOf evalJs senv.html) }

/-! ## Outbound-link deduplication (`getPostContent`, lines 94-130)

Each anchor matching the redirect pattern yields one observation: the
decoded destination (`new URL(link.href).searchParams.get('u')`, `none`
when the parameter is missing) and the four optional metadata fields read
next to it. -/

/-- One outbound-link observation. -/
structure RawLink where
  u : Option String
  thumbUrl : Option String
  domain : Option String
  title : Option String
  text : Option String
deriving Repr, DecidableEq

/-- Fill-if-null update of the entry found by
`ret.find(l => l.url === url)`: each `if (curUrl.f === null) curUrl.f = f`
line keeps a non-null field and fills a null one. -/
def fillLink (l : FbPostLink) (lk : RawLink) : FbPostLink :=
  { l with
    thumbUrl := match l.thumbUrl with | none => lk.thumbUrl | some v => some v
    domain := match l.domain with | none => lk.domain | some v => some v
    title := match l.title with | none => lk.title | some v => some v
    text := match l.text with | none => lk.text | some v => some v }

/-- Mutate the first entry with the given url (what updating the result of
`Array.prototype.find` does). -/
def fillFirst (url : String) (lk : RawLink) : List FbPostLink → List FbPostLink
  | [] => []
  | l :: ls => if l.url = url then fillLink l lk :: ls else l :: fillFirst url lk ls

/-- One step of the `reduce` over link observations (lines 95-130). -/
def addLink (ret : List FbPostLink) (lk : RawLink) : List FbPostLink :=
  match lk.u with
  | none => ret
  | some url =>
    if (ret.find? (fun l => l.url = url)).isSome then fillFirst url lk ret
    else ret ++ [⟨url, lk.thumbUrl, lk.domain, lk.title, lk.text⟩]

/-- The whole `postLinks` fold, starting from the empty accumulator. -/
def postLinksOf (links : List RawLink) : List FbPostLink :=
  links.foldl addLink []

/-! ## Remaining content extraction (`getPostContent`, lines 68-153) -/

/-- One `img[src*="scontent"]` element: its `src` and the `href` of the
enclosing `a[rel="theater"]` anchor when one exists. -/
structure RawImage where
  src : String
  theaterHref : Option String
deriving Repr, DecidableEq

/-- One anchor of the header region: its `href` and its `innerText`. -/
structure HeaderLink where
  href : String
  innerText : String
deriving Repr, DecidableEq

/-- `images.filter(img => img.closest('a[rel="theater"]') && img.src).map(...)`. -/
def postImagesOf (images : List RawImage) : List FbImage :=
  images.filterMap fun img =>
    match img.theaterHref, img.src.data.isEmpty with
    | some href, false => some ⟨href, img.src⟩
    | _, _ => none

/-- Lines 90-92: truncate the header video link before its query string
(only when `indexOf("?") > 0`) and move it to the mobile host. -/
def normVideoUrl (u : String) : String :=
  match breakOn "?".data u.data with
  | some (pre, _) =>
    if pre.isEmpty then u else replaceFirst ⟨pre⟩ "//www." "//m."
  | none => u

/-- Line 88 plus the normalization: the first header anchor whose `href`
contains `/videos/`, made falsy-null and normalized. -/
def videoPostUrlOf (headerLinks : List HeaderLink) : Option String :=
  match (headerLinks.find? fun a => jsIncludes a.href "/videos/").map HeaderLink.href with
  | none => none
  | some h =>
    match jsOrNull h with
    | none => none
    | some u => some (normVideoUrl u)

/-- Line 87: first header anchor with truthy `innerText` gives the author
name. -/
def userNameOf (headerLinks : List HeaderLink) : Option String :=
  (headerLinks.find? fun a => !a.innerText.data.isEmpty).map HeaderLink.innerText

/-- Everything `getPostContent` reads from the loaded page. -/
structure PostEnv where
  hasPostContainer : Bool
  hasUserContent : Bool
  postDate : Option String
  postText : String
  images : List RawImage
  rawLinks : List RawLink
  avatarUrl : Option String
  headerLinks : List HeaderLink
deriving Repr

/-- `convertDate` lives in `./functions`, which is not among the provided
sources, and no claim depends on the date format; we keep the value
unchanged. -/
def convertDate (s : Option String) : Option String := s

/-- `getPostContent` (page module lines 68-153).  The guarded
`waitForSelector(POST_CONTAINER)` throws a driver timeout error when the
container never appears, and the in-page callback throws
`new Error('Missing .userContent')` when the content region is absent;
both are plain unclassified errors.  `pageUrl` is `page.url()`. -/
def getPostContent (env : PostEnv) (pageUrl : String) : Except Err PostRec :=
  if !env.hasPostContainer then
    .error (.plain "TimeoutError: waiting for selector POST_CONTAINER failed")
  else if !env.hasUserContent then
    .error (.plain "Missing .userContent")
  else
    .ok { name := userNameOf env.headerLinks
          logoUrl := env.avatarUrl
          postDate := convertDate env.postDate
          postText := some env.postText
          postUrl := some pageUrl
          postStats := none
          postImages := some (postImagesOf env.images)
          postLinks := some (postLinksOf env.rawLinks)
          videoPostUrl := videoPostUrlOf env.headerLinks
          postVideos := none }

/-! ## Video acquisition (`getVideoUrl`, page module lines 155-192)

The cookie-consent dismissal loop swallows its own failures and changes no
observable state, so it does not appear in the embedding.  The two
`waitForSelector` calls are the behaviour under test: each throws a driver
timeout error when its selector never appears within its timeout.  After
the successful wait for `.widePic > div > div` the click callback always
returns `true`, so the final `return null` branch is unreachable. -/

/-- What `getVideoUrl` observes on the video sub-page. -/
structure VideoEnv where
  posterAppears : Bool
  videoAppears : Bool
  videoSrc : String
deriving Repr

/-- `getVideoUrl` (lines 155-192). -/
def getVideoUrl (env : VideoEnv) : Except Err (Option String) :=
  if !env.posterAppears then
    .error (.plain "TimeoutError: waiting for selector .widePic > div > div failed")
  else if !env.videoAppears then
    .error (.plain "TimeoutError: waiting for selector video failed")
  else
    .ok (jsOrNull env.videoSrc)

/-! ## Crawl orchestrator (`main.ts` lines 543-553 and 709-838) -/

/-- The request-level data the handler reads: `request.url` plus the
`userData` written at enqueue time. -/
structure Request where
  url : String
  label : String
  username : String
  canonical : String
  useMobile : Bool
deriving Repr, DecidableEq

/-- The request added by `initVideoPage` (lines 543-553):
`{ url, userData: { label: VIDEO, ref: url, useMobile: true, username } }`
with `{ forefront: true }`. -/
structure VideoRequest where
  url : String
  label : String
  ref : String
  useMobile : Bool
  username : String
  forefront : Bool
deriving Repr, DecidableEq

/-- `initVideoPage` (lines 543-553). -/
def mkVideoRequest (url username : String) : VideoRequest :=
  { url := url, label := "VIDEO", ref := url, useMobile := true,
    username := username, forefront := true }

/-- The page-level state the block checks read, together with the
per-label extraction environments. -/
structure PageEnv where
  pageUrl : String
  hasMobileCaptcha : Bool
  mobileMetaOk : Bool
  hasDesktopCaptcha : Bool
  titleIsError : Bool
  post : PostEnv
  script : ScriptEnv
  video : VideoEnv
deriving Repr

/-- The block-detection sequence at the top of `handlePageFunction`
(lines 716-768), in source order: login redirect, mobile captcha, the two
mobile layout markers, desktop captcha, the generic `Error` title. -/
def blockCheck (req : Request) (env : PageEnv) : Option Err :=
  if jsIncludes env.pageUrl "?next=" then
    some (.info "login" "Content needs login to work, this will be retried but most likely will not work as expected")
  else if req.useMobile && env.hasMobileCaptcha then
    some (.info "captcha" "Mobile captcha found")
  else if req.useMobile && !env.mobileMetaOk then
    some (.info "mobile-meta" "An unexpected page layout was returned by the server. This request will be retried shortly.")
  else if !req.useMobile && env.hasDesktopCaptcha then
    some (.info "captcha" "Desktop captcha found")
  else if env.titleIsError then
    some (.info "internal" "Facebook internal error, maybe it is going through instability, it will be retried")
  else
    none

/-- The happy-path body of `handlePageFunction` (lines 716-817): block
checks, then the POST branch (stats and content extraction joined,
`map.write`, optional video follow-up) or the VIDEO branch (acquisition
subflow, `map.append` with `mergeVideo`).  Returns the updated store and
the list of enqueued follow-up requests, or the raised failure. -/
def handlePage (evalJs : String → Option (List ReactionNode)) (req : Request)
    (env : PageEnv) (store : Store) : Except Err (Store × List VideoRequest) :=
  match blockCheck req env with
  | some e => .error e
  | none =>
    if req.label = "POST" then
      match getPostContent env.post env.pageUrl with
      | .error e => .error e
      | .ok content =>
        let postStats := getPostInfoFromScript evalJs env.script
        let content₂ := { content with postStats := some postStats }
        let store₂ := store.write req.username content₂
        if jsTruthy content₂.videoPostUrl then
          .ok (store₂, [mkVideoRequest (content₂.videoPostUrl.getD "") req.username])
        else
          .ok (store₂, [])
    else if req.label = "VIDEO" then
      match getVideoUrl env.video with
      | .error e => .error e
      | .ok videoUrl =>
        .ok (store.append req.username (mergeVideo req.url videoUrl), [])
    else
      .ok (store, [])

/-- The namespaces the catch block actually tests
(`['captcha', 'mobile-meta', 'getFieldInfos', 'internal', 'login', 'threshold']`,
line 829). -/
def retireNamespaces : List String :=
  ["captcha", "mobile-meta", "getFieldInfos", "internal", "login", "threshold"]

/-- The catch block (lines 818-835): an `InfoError` whose namespace is in
the hard-coded list retires the session and closes the tab before the
failure is re-thrown; everything else is re-thrown untouched. -/
def shouldRetire : Err → Bool
  | .info ns _ => decide (ns ∈ retireNamespaces)
  | .plain _ => false

/-- Result of handling one dequeued request: the store after the handler
(unchanged when it raised), the follow-up requests it enqueued, the
re-raised failure if any, and whether the session-retirement signal was
emitted. -/
structure StepResult where
  store : Store
  enqueued : List VideoRequest
  raised : Option Err
  retired : Bool
deriving Repr

/-- One full orchestrator step: run the handler, and on failure apply the
catch-block policy and re-raise. -/
def crawlStep (evalJs : String → Option (List ReactionNode)) (req : Request)
    (env : PageEnv) (store : Store) : StepResult :=
  match handlePage evalJs req env store with
  | .ok (store₂, enq) => ⟨store₂, enq, none, false⟩
  | .error e => ⟨store, [], some e, shouldRetire e⟩

/-! ## Run traces over the aggregation store

For the per-author invariant we abstract one run as the sequence of store
mutations the successful handler branches perform: a successful POST
extraction for an author runs `map.write`, and a VIDEO request for an
author runs `map.append` with `mergeVideo` (the only two mutation sites in
`handlePageFunction`). -/

/-- One store mutation of a run. -/
inductive Event where
  | post (username : String) (content : PostRec)
  | video (username : String) (reqUrl : String) (videoUrl : Option String)
deriving Repr, DecidableEq

/-- The author the event is keyed by. -/
def Event.user : Event → String
  | .post u _ => u
  | .video u _ _ => u

/-- Whether the event is a VIDEO append. -/
def Event.isVideo : Event → Bool
  | .post _ _ => false
  | .video _ _ _ => true

/-- Apply one event to the store, exactly as the handler branches do. -/
def stepEvent (s : Store) : Event → Store
  | .post u content => s.write u content
  | .video u reqUrl videoUrl => s.append u (mergeVideo reqUrl videoUrl)

/-- Run a whole trace from the empty store of a fresh run. -/
def runEvents (es : List Event) : Store := es.foldl stepEvent []

/-- The record an author sees after one of its own events, as a function
of the previously stored record. -/
def stepRecord (cur : Option PostRec) : Event → PostRec
  | .post _ content => content
  | .video _ reqUrl videoUrl => mergeVideo reqUrl videoUrl cur

/-- Agreement on every field except `postVideos` and `videoPostUrl`. -/
def sameCore (r c : PostRec) : Prop :=
  r.name = c.name ∧ r.logoUrl = c.logoUrl ∧ r.postDate = c.postDate ∧
  r.postText = c.postText ∧ r.postUrl = c.postUrl ∧ r.postStats = c.postStats ∧
  r.postImages = c.postImages ∧ r.postLinks = c.postLinks

instance : DecidablePred (fun p : PostRec × PostRec => sameCore p.1 p.2) :=
  fun _ => by unfold sameCore; infer_instance

/-- `sameCore` holds of a record and itself. -/
theorem sameCore_refl (c : PostRec) : sameCore c c :=
  ⟨rfl, rfl, rfl, rfl, rfl, rfl, rfl, rfl⟩

/-- `sameCore` chains. -/
theorem sameCore_trans {a b c : PostRec} (h₁ : sameCore a b) (h₂ : sameCore b c) :
    sameCore a c := by
  obtain ⟨e1, e2, e3, e4, e5, e6, e7, e8⟩ := h₁
  obtain ⟨f1, f2, f3, f4, f5, f6, f7, f8⟩ := h₂
  exact ⟨e1.trans f1, e2.trans f2, e3.trans f3, e4.trans f4,
         e5.trans f5, e6.trans f6, e7.trans f7, e8.trans f8⟩

/-- The video merge touches only `postVideos` and `videoPostUrl`. -/
theorem sameCore_mergeVideo (v : PostRec) (reqUrl : String) (videoUrl : Option String) :
    sameCore (mergeVideo reqUrl videoUrl (some v)) v := by
  simp [mergeVideo, sameCore]

/-! ## Store lemmas -/

/-- Lookup after a write. -/
theorem lookup_write (s : Store) (k a : String) (v : PostRec) :
    (s.write k v).lookup a = if k = a then some v else s.lookup a := by
  induction s with
  | nil =>
    by_cases h : k = a <;> simp [Store.write, Store.lookup, h]
  | cons hd tl ih =>
    obtain ⟨k₂, v₂⟩ := hd
    by_cases h₂ : k₂ = k
    · subst h₂
      by_cases h : k₂ = a <;> simp [Store.write, Store.lookup, h]
    · by_cases h : k₂ = a
      · subst h
        have hk : ¬ k = k₂ := fun he => h₂ he.symm
        simp [Store.write, Store.lookup, h₂, hk]
      · simp [Store.write, Store.lookup, h₂, h, ih]

/-- Lookup after an append. -/
theorem lookup_append (s : Store) (k a : String) (f : Option PostRec → PostRec) :
    (s.append k f).lookup a =
      if k = a then some (f (s.lookup k)) else s.lookup a := by
  simp [Store.append, lookup_write]

/-- A missing lookup means the key is absent. -/
theorem lookup_none_iff (s : Store) (k : String) :
    Store.lookup s k = none ↔ k ∉ Store.keys s := by
  induction s with
  | nil => simp [Store.lookup, Store.keys]
  | cons hd tl ih =>
    obtain ⟨k₂, v₂⟩ := hd
    by_cases h₂ : k₂ = k
    · subst h₂
      simp [Store.lookup, Store.keys]
    · have hne : k ≠ k₂ := fun he => h₂ he.symm
      simp [Store.lookup, Store.keys, h₂, hne, ih]

/-- The keys after a write: unchanged when the key was present, the key
added at the end otherwise. -/
theorem keys_write (s : Store) (k : String) (v : PostRec) :
    Store.keys (Store.write s k v) =
      if (Store.lookup s k).isSome then Store.keys s else Store.keys s ++ [k] := by
  induction s with
  | nil => simp [Store.write, Store.lookup, Store.keys]
  | cons hd tl ih =>
    obtain ⟨k₂, v₂⟩ := hd
    by_cases h₂ : k₂ = k
    · subst h₂
      simp [Store.write, Store.lookup, Store.keys]
    · have hstep : Store.write ((k₂, v₂) :: tl) k v = (k₂, v₂) :: Store.write tl k v := by
        simp [Store.write, h₂]
      have hlk : Store.lookup ((k₂, v₂) :: tl) k = Store.lookup tl k := by
        simp [Store.lookup, h₂]
      rw [hstep, hlk]
      show k₂ :: Store.keys (Store.write tl k v) = _
      rw [ih]
      by_cases hmem : (Store.lookup tl k).isSome <;> simp [hmem, Store.keys]

/-- A write keeps the author keys duplicate-free. -/
theorem nodup_keys_write (s : Store) (k : String) (v : PostRec)
    (h : (Store.keys s).Nodup) : (Store.keys (Store.write s k v)).Nodup := by
  rw [keys_write]
  by_cases hmem : (Store.lookup s k).isSome
  · simpa [hmem] using h
  · have hnone : Store.lookup s k = none := Option.not_isSome_iff_eq_none.mp hmem
    have hk : k ∉ Store.keys s := (lookup_none_iff s k).mp hnone
    simp [hmem, List.nodup_append, h, hk]

/-! ## Trace lemmas -/

/-- How one event changes what an author sees in the store. -/
theorem lookup_stepEvent (s : Store) (e : Event) (a : String) :
    (stepEvent s e).lookup a =
      if e.user = a then some (stepRecord (s.lookup a) e) else s.lookup a := by
  cases e with
  | post u content =>
    by_cases h : u = a <;> simp [stepEvent, Event.user, stepRecord, lookup_write, h]
  | video u reqUrl videoUrl =>
    by_cases h : u = a
    · subst h
      simp [stepEvent, Event.user, stepRecord, lookup_append]
    · simp [stepEvent, Event.user, stepRecord, lookup_append, h]

/-- What one author sees after a trace depends only on the events keyed by
that author, folded through `stepRecord`. -/
theorem lookup_foldl_events (es : List Event) (s : Store) (a : String) :
    (es.foldl stepEvent s).lookup a =
      (es.filter (fun e => e.user = a)).foldl
        (fun cur e => some (stepRecord cur e)) (s.lookup a) := by
  induction es generalizing s with
  | nil => rfl
  | cons e es ih =>
    by_cases h : e.user = a
    · rw [List.foldl_cons, List.filter_cons, if_pos (by simpa using h),
        List.foldl_cons, ih, lookup_stepEvent, if_pos h]
    · rw [List.foldl_cons, List.filter_cons, if_neg (by simpa using h),
        ih, lookup_stepEvent, if_neg h]

/-- Folding video events over a created record never leaves the core
fields: the record stays present and merged, never replaced. -/
theorem core_video_fold (vs : List Event) (c : PostRec)
    (hvs : ∀ e ∈ vs, e.isVideo = true) :
    ∃ r, vs.foldl (fun cur e => some (stepRecord cur e)) (some c) = some r ∧
      sameCore r c := by
  induction vs generalizing c with
  | nil => exact ⟨c, rfl, sameCore_refl c⟩
  | cons e vs ih =>
    cases e with
    | post u content => simpa [Event.isVideo] using hvs _ (List.mem_cons_self _ _)
    | video u reqUrl videoUrl =>
      obtain ⟨r, hr, hcore⟩ :=
        ih (mergeVideo reqUrl videoUrl (some c)) (fun e he => hvs e (List.mem_cons_of_mem _ he))
      exact ⟨r, by simpa [stepRecord] using hr,
        sameCore_trans hcore (sameCore_mergeVideo c reqUrl videoUrl)⟩

/-- A whole run keeps at most one entry per author. -/
theorem nodup_keys_runEvents (es : List Event) : (runEvents es).keys.Nodup := by
  have aux : ∀ (es : List Event) (s : Store), s.keys.Nodup →
      (es.foldl stepEvent s).keys.Nodup := by
    intro es
    induction es with
    | nil => intro s h; exact h
    | cons e es ih =>
      intro s h
      refine ih _ ?_
      cases e with
      | post u content => exact nodup_keys_write s u content h
      | video u reqUrl videoUrl => exact nodup_keys_write _ _ _ h
  exact aux es [] (by simp [Store.keys])

/-- Core agreement with a record, phrased over an optional lookup result. -/
def coreMatches (c : PostRec) : Option PostRec → Prop
  | some r => sameCore r c
  | none => False

/-! ## Auxiliary facts for `maxFromMatches` -/

/-- The fold of `maxFromMatches` is a maximum fold over the parsed
values. -/
theorem maxFromMatches_eq_foldl (ms : List String) :
    maxFromMatches ms = (ms.map jsToNum).foldl max 0 := by
  have aux : ∀ (ms : List String) (a : Nat),
      ms.foldl (fun count value => if jsToNum value > count then jsToNum value else count) a =
        (ms.map jsToNum).foldl max a := by
    intro ms
    induction ms with
    | nil => intro a; rfl
    | cons m rest ih =>
      intro a
      have hstep : (if jsToNum m > a then jsToNum m else a) = max a (jsToNum m) := by
        split_ifs with h
        · exact (max_eq_right (le_of_lt h)).symm
        · exact (max_eq_left (le_of_not_lt h)).symm
      simp only [List.foldl_cons, List.map_cons, hstep, ih]
  exact aux ms 0

/-- The start value bounds a maximum fold. -/
theorem le_foldl_max_init (l : List Nat) (a : Nat) : a ≤ l.foldl max a := by
  induction l generalizing a with
  | nil => exact Nat.le_refl a
  | cons x l ih => exact Nat.le_trans (le_max_left a x) (ih (max a x))

/-- Every member bounds a maximum fold. -/
theorem le_foldl_max_mem (l : List Nat) :
    ∀ x ∈ l, ∀ a : Nat, x ≤ l.foldl max a := by
  induction l with
  | nil => intro x hx; cases hx
  | cons y l ih =>
    intro x hx a
    rcases List.mem_cons.mp hx with h | h
    · subst h
      exact Nat.le_trans (le_max_right a x) (le_foldl_max_init l (max a x))
    · exact ih x h (max a y)

/-- A maximum fold returns its start value or a member. -/
theorem foldl_max_cases (l : List Nat) (a : Nat) :
    l.foldl max a = a ∨ l.foldl max a ∈ l := by
  induction l generalizing a with
  | nil => exact Or.inl rfl
  | cons y l ih =>
    rcases ih (max a y) with h | h
    · rcases max_choice a y with hm | hm
      · exact Or.inl (by rw [List.foldl_cons, h, hm])
      · exact Or.inr (List.mem_cons.mpr (Or.inl (by rw [List.foldl_cons, h, hm])))
    · exact Or.inr (List.mem_cons.mpr (Or.inr (by rw [List.foldl_cons]; exact h)))

/-! ## Claim theorems -/

/-- Claim C10: the VIDEO merge function changes nothing besides
`postVideos` and `videoPostUrl` — every other field of the prior stored
record survives the merge, the stale `videoPostUrl` is deleted, and
`postVideos` becomes the single new reference. -/
theorem C10_merge_frame (v : PostRec) (reqUrl : String) (videoUrl : Option String) :
    sameCore (mergeVideo reqUrl videoUrl (some v)) v ∧
    (mergeVideo reqUrl videoUrl (some v)).videoPostUrl = none ∧
    (mergeVideo reqUrl videoUrl (some v)).postVideos = some [⟨reqUrl, videoUrl⟩] :=
  ⟨sameCore_mergeVideo v reqUrl videoUrl, rfl, rfl⟩

/-- Claim C8: `maxFromMatches` returns 0 on no matches, and otherwise the
maximum of the parsed numeric values of the capture groups. -/
theorem C8_max_from_matches (ms : List String) :
    (ms = [] → maxFromMatches ms = 0) ∧
    (∀ s ∈ ms, jsToNum s ≤ maxFromMatches ms) ∧
    (ms ≠ [] → ∃ s ∈ ms, maxFromMatches ms = jsToNum s) := by
  refine ⟨fun h => by subst h; rfl, ?_, ?_⟩
  · intro s hs
    rw [maxFromMatches_eq_foldl]
    exact le_foldl_max_mem _ _ (List.mem_map_of_mem jsToNum hs) 0
  · intro hne
    match ms, hne with
    | m :: rest, _ =>
      rw [maxFromMatches_eq_foldl]
      simp only [List.map_cons, List.foldl_cons, max_eq_right (Nat.zero_le (jsToNum m))]
      rcases foldl_max_cases (rest.map jsToNum) (jsToNum m) with h | h
      · exact ⟨m, List.mem_cons_self m rest, h⟩
      · obtain ⟨s, hs, hval⟩ := List.mem_map.mp h
        exact ⟨s, List.mem_cons_of_mem m hs, hval.symm⟩

/-- Claim C8, witness: a concrete run of `maxFromMatches`. -/
theorem C8_max_from_matches_witness :
    jsToNum "7" ≤ maxFromMatches ["3", "12", "7"] :=
  (C8_max_from_matches ["3", "12", "7"]).2.1 "7" (by decide)

/-- Claim C2, counterexample: `getVideoUrl` raises a driver timeout error
— it does not resolve to a "no video" outcome — both when the poster
control never appears and when no `video` element appears after the
click. -/
theorem C2_counterexample :
    getVideoUrl ⟨false, false, ""⟩ =
      .error (.plain "TimeoutError: waiting for selector .widePic > div > div failed") ∧
    getVideoUrl ⟨true, false, "x"⟩ =
      .error (.plain "TimeoutError: waiting for selector video failed") :=
  ⟨rfl, rfl⟩

/-- Claim C2 (amended): `getVideoUrl` raises a timeout failure when the
poster control never appears, raises a timeout failure when no video
element appears within the bounded wait after the click, and resolves only
when both waits succeed — to the source URL, or to null when the video
element has an empty source. -/
theorem C2_video_url_outcomes (env : VideoEnv) :
    (env.posterAppears = false →
      getVideoUrl env =
        .error (.plain "TimeoutError: waiting for selector .widePic > div > div failed")) ∧
    (env.posterAppears = true → env.videoAppears = false →
      getVideoUrl env =
        .error (.plain "TimeoutError: waiting for selector video failed")) ∧
    (env.posterAppears = true → env.videoAppears = true →
      getVideoUrl env = .ok (jsOrNull env.videoSrc)) := by
  obtain ⟨p, w, src⟩ := env
  refine ⟨fun hp => ?_, fun hp hw => ?_, fun hp hw => ?_⟩ <;>
    subst hp <;> simp_all [getVideoUrl]

/-- Claim C2, witness: with both waits succeeding the subflow resolves to
the source URL. -/
theorem C2_video_url_outcomes_witness :
    getVideoUrl ⟨true, true, "https://video.example/v.mp4"⟩ =
      .ok (jsOrNull "https://video.example/v.mp4") :=
  (C2_video_url_outcomes ⟨true, true, "https://video.example/v.mp4"⟩).2.2 rfl rfl

/-- Claim C6, counterexample: the code also retires the session for the
classified namespace `getFieldInfos`, which is outside the claimed
five-element set, so the claimed equivalence fails. -/
theorem C6_counterexample :
    shouldRetire (Err.info "getFieldInfos" "x") = true ∧
    "getFieldInfos" ∉ ["captcha", "mobile-meta", "internal", "login", "threshold"] := by
  exact ⟨rfl, by decide⟩

/-- Claim C6 (amended): the session-retirement-and-tab-close signal is
emitted exactly for classified failures whose namespace lies in
`{captcha, mobile-meta, getFieldInfos, internal, login, threshold}`; every
failure the handler raises is re-raised, with the retirement signal
determined by that test and never set for unclassified failures. -/
theorem C6_retirement_policy :
    (∀ e : Err, shouldRetire e = true ↔
        ∃ ns msg, e = Err.info ns msg ∧ ns ∈ retireNamespaces) ∧
    (∀ msg, shouldRetire (Err.plain msg) = false) ∧
    (∀ evalJs req env store e, handlePage evalJs req env store = .error e →
        (crawlStep evalJs req env store).raised = some e ∧
        (crawlStep evalJs req env store).retired = shouldRetire e ∧
        (crawlStep evalJs req env store).store = store) := by
  refine ⟨?_, fun msg => rfl, ?_⟩
  · intro e
    cases e with
    | info ns msg =>
      constructor
      · intro h
        exact ⟨ns, msg, rfl, by simpa [shouldRetire] using h⟩
      · rintro ⟨ns₂, msg₂, heq, hmem⟩
        cases heq
        simpa [shouldRetire] using hmem
    | plain msg => simp [shouldRetire]
  · intro evalJs req env store e herr
    simp [crawlStep, herr]

/-- Claim C6, witness: a desktop captcha failure is re-raised with the
retirement signal set. -/
theorem C6_retirement_policy_witness :
    shouldRetire (Err.info "captcha" "Desktop captcha found") = true :=
  (C6_retirement_policy.1 (Err.info "captcha" "Desktop captcha found")).mpr
    ⟨"captcha", "Desktop captcha found", rfl, by decide⟩

/-- Claim C1, counterexample: a run with two successful POST extractions
for the same author — reachable from two seed post URLs of one page — has
the second `map.write` wholesale-replace the record the first write
created: after the second POST, nothing of the first record survives
(its core fields are gone), refuting "every later operation only merges
... never replacing an already-created record wholesale". -/
theorem C1_counterexample :
    Store.lookup (runEvents
      [Event.post "alice" ⟨some "n1", none, none, some "t", none, none, none, none, none, none⟩,
       Event.post "alice" PostRec.empty]) "alice" = some PostRec.empty ∧
    ¬ coreMatches ⟨some "n1", none, none, some "t", none, none, none, none, none, none⟩
      (Store.lookup (runEvents
        [Event.post "alice" ⟨some "n1", none, none, some "t", none, none, none, none, none, none⟩,
         Event.post "alice" PostRec.empty]) "alice") := by
  refine ⟨rfl, fun h => ?_⟩
  have h₂ : coreMatches
      (⟨some "n1", none, none, some "t", none, none, none, none, none, none⟩ : PostRec)
      (some PostRec.empty) := h
  exact absurd h₂.1 (by decide)

/-- Claim C1 (amended): at most one record exists per author in every
run — the store keys stay duplicate-free; when an author's operations are
one successful POST write followed only by VIDEO appends, the record is
created by that write and later appends only merge, preserving every
field other than `postVideos` and `videoPostUrl`; but a later successful
POST extraction for the same author wholesale-replaces the stored record
via `write`. -/
theorem C1_single_record_per_author :
    (∀ es : List Event, (Store.keys (runEvents es)).Nodup) ∧
    (∀ (es : List Event) (a : String) (c : PostRec) (vs : List Event),
      es.filter (fun e => e.user = a) = Event.post a c :: vs →
      (∀ e ∈ vs, e.isVideo = true) →
      coreMatches c (Store.lookup (runEvents es) a)) ∧
    (∀ (s : Store) (a : String) (c : PostRec),
      Store.lookup (Store.write s a c) a = some c) := by
  refine ⟨nodup_keys_runEvents, ?_, ?_⟩
  · intro es a c vs hfilter hvs
    have h := lookup_foldl_events es [] a
    rw [hfilter, List.foldl_cons] at h
    show coreMatches c (Store.lookup (List.foldl stepEvent [] es) a)
    rw [h]
    obtain ⟨r, hr, hcore⟩ := core_video_fold vs c hvs
    have hinit : some (stepRecord (Store.lookup [] a) (Event.post a c)) = some c := rfl
    rw [hinit, hr]
    exact hcore
  · intro s a c
    rw [lookup_write, if_pos rfl]

/-- Claim C1, witness: the merge-only part at a concrete interleaved
trace for two authors. -/
theorem C1_single_record_per_author_witness :
    coreMatches ⟨some "n", none, none, some "t", some "p", none, some [], some [], some "v", none⟩
      (Store.lookup (runEvents
        [Event.post "alice" ⟨some "n", none, none, some "t", some "p", none, some [], some [], some "v", none⟩,
         Event.video "alice" "u1" (some "src"),
         Event.post "bob" PostRec.empty,
         Event.video "alice" "u2" none]) "alice") :=
  C1_single_record_per_author.2.1 _ "alice" _
    [Event.video "alice" "u1" (some "src"), Event.video "alice" "u2" none]
    (by decide) (by decide)

/-- Claim C3, counterexample: when the content region is missing the
raised failure is the plain `Error('Missing .userContent')`, which carries
no classification namespace at all — not a failure classified
`missing-content`. -/
theorem C3_counterexample :
    (crawlStep (fun _ => none)
      ⟨"https://www.facebook.com/a/posts/1", "POST", "user", "c", false⟩
      ⟨"p", false, true, false, false,
        ⟨true, false, none, "", [], [], none, []⟩,
        ⟨"", [], [], []⟩, ⟨false, false, ""⟩⟩
      [("user", PostRec.empty)]).raised = some (Err.plain "Missing .userContent") ∧
    Err.nsOf (Err.plain "Missing .userContent") ≠ some "missing-content" :=
  ⟨rfl, by decide⟩

/-- Claim C3 (amended): a POST request whose loaded page lacks the
expected content region raises the plain, unclassified
`Missing .userContent` error; the failure propagates to the orchestrator
(it is re-raised, with no session retirement since it is unclassified),
nothing is enqueued, and the aggregation store is unchanged — no write
occurs for that author. -/
theorem C3_missing_content (evalJs : String → Option (List ReactionNode))
    (req : Request) (env : PageEnv) (store : Store)
    (hblock : blockCheck req env = none)
    (hlabel : req.label = "POST")
    (hcontainer : env.post.hasPostContainer = true)
    (hmissing : env.post.hasUserContent = false) :
    crawlStep evalJs req env store =
      ⟨store, [], some (Err.plain "Missing .userContent"), false⟩ ∧
    Err.nsOf (Err.plain "Missing .userContent") = none := by
  have hc : getPostContent env.post env.pageUrl = .error (.plain "Missing .userContent") := by
    simp [getPostContent, hcontainer, hmissing]
  refine ⟨?_, rfl⟩
  simp [crawlStep, handlePage, hblock, hlabel, hc, shouldRetire]

/-- Claim C3, witness: the amended statement at the concrete page of the
counterexample. -/
theorem C3_missing_content_witness :
    crawlStep (fun _ => none)
      ⟨"https://www.facebook.com/a/posts/1", "POST", "user", "c", false⟩
      ⟨"p", false, true, false, false,
        ⟨true, false, none, "", [], [], none, []⟩,
        ⟨"", [], [], []⟩, ⟨false, false, ""⟩⟩
      [("user", PostRec.empty)] =
      ⟨[("user", PostRec.empty)], [], some (Err.plain "Missing .userContent"), false⟩ ∧
    Err.nsOf (Err.plain "Missing .userContent") = none :=
  C3_missing_content (fun _ => none) _ _ _ rfl rfl rfl rfl

/-- Claim C4: a successful POST extraction whose record carries a truthy
`videoPostUrl` enqueues exactly one VIDEO follow-up request, carrying the
same author identity as the POST request. -/
theorem C4_video_followup (evalJs : String → Option (List ReactionNode))
    (req : Request) (env : PageEnv) (store : Store) (content : PostRec)
    (hblock : blockCheck req env = none)
    (hlabel : req.label = "POST")
    (hcontent : getPostContent env.post env.pageUrl = .ok content)
    (hvid : jsTruthy content.videoPostUrl = true) :
    (crawlStep evalJs req env store).enqueued =
      [mkVideoRequest (content.videoPostUrl.getD "") req.username] ∧
    (mkVideoRequest (content.videoPostUrl.getD "") req.username).username = req.username ∧
    (crawlStep evalJs req env store).raised = none := by
  refine ⟨?_, rfl, ?_⟩ <;>
    simp [crawlStep, handlePage, hblock, hlabel, hcontent, hvid]

/-- Claim C4, witness: a concrete post page carrying a header video link
enqueues the single follow-up request. -/
theorem C4_video_followup_witness :
    (crawlStep (fun _ => none)
      ⟨"https://www.facebook.com/a/posts/9", "POST", "autor", "c", false⟩
      ⟨"pu", false, true, false, false,
        ⟨true, true, none, "hello", [], [], none,
          [⟨"https://www.facebook.com/a/videos/123/", "Author Name"⟩]⟩,
        ⟨"", [], [], []⟩, ⟨false, false, ""⟩⟩
      []).enqueued =
      [mkVideoRequest "https://www.facebook.com/a/videos/123/" "autor"] ∧
    (mkVideoRequest "https://www.facebook.com/a/videos/123/" "autor").username = "autor" ∧
    (crawlStep (fun _ => none)
      ⟨"https://www.facebook.com/a/posts/9", "POST", "autor", "c", false⟩
      ⟨"pu", false, true, false, false,
        ⟨true, true, none, "hello", [], [], none,
          [⟨"https://www.facebook.com/a/videos/123/", "Author Name"⟩]⟩,
        ⟨"", [], [], []⟩, ⟨false, false, ""⟩⟩
      []).raised = none :=
  C4_video_followup (fun _ => none) _ _ []
    ⟨some "Author Name", none, none, some "hello", some "pu", none, some [], some [],
      some "https://www.facebook.com/a/videos/123/", none⟩
    rfl rfl rfl rfl

/-- What the VIDEO append leaves for the author, phrased over the lookup
result: `videoPostUrl` cleared and `postVideos` holding exactly the new
reference (whose video URL may be null). -/
def videoApplied (reqUrl : String) (videoUrl : Option String) : Option PostRec → Prop
  | some r => r.videoPostUrl = none ∧ r.postVideos = some [⟨reqUrl, videoUrl⟩]
  | none => False

/-- Claim C5: whenever the acquisition subflow resolves (to a URL or to
"no video"), the VIDEO branch performs the append for the request's
author: the stored record afterwards has its stale `videoPostUrl` cleared
and a `VideoRef` carrying the sub-page URL and the resolved (possibly
null) video URL, and no failure is raised. -/
theorem C5_video_append (evalJs : String → Option (List ReactionNode))
    (req : Request) (env : PageEnv) (store : Store) (videoUrl : Option String)
    (hblock : blockCheck req env = none)
    (hlabel : req.label = "VIDEO")
    (hresolve : getVideoUrl env.video = .ok videoUrl) :
    (crawlStep evalJs req env store).store =
      Store.append store req.username (mergeVideo req.url videoUrl) ∧
    (crawlStep evalJs req env store).raised = none ∧
    videoApplied req.url videoUrl
      (Store.lookup (crawlStep evalJs req env store).store req.username) := by
  have hstep : crawlStep evalJs req env store =
      ⟨Store.append store req.username (mergeVideo req.url videoUrl), [], none, false⟩ := by
    simp [crawlStep, handlePage, hblock, hlabel, hresolve,
      show ("VIDEO" : String) ≠ "POST" from by decide]
  refine ⟨by rw [hstep], by rw [hstep], ?_⟩
  rw [hstep]
  have hl := lookup_append store req.username req.username (mergeVideo req.url videoUrl)
  rw [if_pos rfl] at hl
  show videoApplied req.url videoUrl
    (Store.lookup (Store.append store req.username (mergeVideo req.url videoUrl)) req.username)
  rw [hl]
  cases h : Store.lookup store req.username <;>
    simp [videoApplied, mergeVideo, PostRec.empty]

/-- Claim C5, witness: a resolved "no video" outcome still appends and
clears the pending link. -/
theorem C5_video_append_witness :
    (crawlStep (fun _ => none)
      ⟨"https://m.facebook.com/a/videos/123/", "VIDEO", "autor", "", true⟩
      ⟨"vp", false, true, false, false,
        ⟨true, true, none, "", [], [], none, []⟩, ⟨"", [], [], []⟩,
        ⟨true, true, ""⟩⟩
      [("autor", ⟨some "n", none, none, some "t", some "p", none, some [], some [],
        some "https://m.facebook.com/a/videos/123/", none⟩)]).store =
      Store.append
        [("autor", ⟨some "n", none, none, some "t", some "p", none, some [], some [],
          some "https://m.facebook.com/a/videos/123/", none⟩)]
        "autor" (mergeVideo "https://m.facebook.com/a/videos/123/" none) ∧
    (crawlStep (fun _ => none)
      ⟨"https://m.facebook.com/a/videos/123/", "VIDEO", "autor", "", true⟩
      ⟨"vp", false, true, false, false,
        ⟨true, true, none, "", [], [], none, []⟩, ⟨"", [], [], []⟩,
        ⟨true, true, ""⟩⟩
      [("autor", ⟨some "n", none, none, some "t", some "p", none, some [], some [],
        some "https://m.facebook.com/a/videos/123/", none⟩)]).raised = none ∧
    videoApplied "https://m.facebook.com/a/videos/123/" none
      (Store.lookup
        (crawlStep (fun _ => none)
          ⟨"https://m.facebook.com/a/videos/123/", "VIDEO", "autor", "", true⟩
          ⟨"vp", false, true, false, false,
            ⟨true, true, none, "", [], [], none, []⟩, ⟨"", [], [], []⟩,
            ⟨true, true, ""⟩⟩
          [("autor", ⟨some "n", none, none, some "t", some "p", none, some [], some [],
            some "https://m.facebook.com/a/videos/123/", none⟩)]).store "autor") :=
  C5_video_append (fun _ => none) _ _
    [("autor", ⟨some "n", none, none, some "t", some "p", none, some [], some [],
      some "https://m.facebook.com/a/videos/123/", none⟩)]
    none rfl rfl rfl

/-! ## Lemmas for the link deduplication -/

/-- The fill-if-null discipline between an entry before and after one
step: each optional field is unchanged, or was null before. -/
def fillsOnly (old nw : FbPostLink) : Prop :=
  (nw.thumbUrl = old.thumbUrl ∨ old.thumbUrl = none) ∧
  (nw.domain = old.domain ∨ old.domain = none) ∧
  (nw.title = old.title ∨ old.title = none) ∧
  (nw.text = old.text ∨ old.text = none)

/-- One positional slot after a dedup step: the entry is still there, with
the same url, only null fields filled. -/
def fillStep (old : FbPostLink) : Option FbPostLink → Prop
  | some nw => nw.url = old.url ∧ fillsOnly old nw
  | none => False

/-- The step never changes or forgets entry urls when it fills. -/
theorem map_url_fillFirst (url : String) (lk : RawLink) (acc : List FbPostLink) :
    (fillFirst url lk acc).map FbPostLink.url = acc.map FbPostLink.url := by
  induction acc with
  | nil => rfl
  | cons l ls ih =>
    by_cases h : l.url = url
    · simp [fillFirst, h, fillLink]
    · simp [fillFirst, h, ih]

/-- The step keeps the entry urls duplicate-free. -/
theorem nodup_addLink (acc : List FbPostLink) (lk : RawLink)
    (h : (acc.map FbPostLink.url).Nodup) :
    ((addLink acc lk).map FbPostLink.url).Nodup := by
  match hu : lk.u with
  | none => simpa [addLink, hu] using h
  | some url =>
    by_cases hfind : ((acc.find? fun l => l.url = url)).isSome
    · simpa [addLink, hu, hfind, map_url_fillFirst] using h
    · have hnone : (acc.find? fun l => l.url = url) = none :=
        Option.not_isSome_iff_eq_none.mp hfind
      have hnotmem : url ∉ acc.map FbPostLink.url := by
        intro hmem
        obtain ⟨l, hl, hurl⟩ := List.mem_map.mp hmem
        have := List.find?_eq_none.mp hnone l hl
        simp [hurl] at this
      simp [addLink, hu, hfind, List.nodup_append, h, hnotmem]

/-- A record fills only null optional fields of itself. -/
theorem fillsOnly_refl (l : FbPostLink) : fillsOnly l l :=
  ⟨Or.inl rfl, Or.inl rfl, Or.inl rfl, Or.inl rfl⟩

/-- Positional behaviour of `fillFirst`: each existing entry keeps its url
and has only null fields filled. -/
theorem fillFirst_get (url : String) (lk : RawLink) (acc : List FbPostLink) :
    ∀ (i : Nat) (old : FbPostLink), acc[i]? = some old →
      fillStep old ((fillFirst url lk acc)[i]?) := by
  induction acc with
  | nil => intro i old h; simp at h
  | cons l ls ih =>
    intro i old h
    cases i with
    | zero =>
      have hl : l = old := by simpa using h
      subst hl
      by_cases hurl : l.url = url
      · have : (fillFirst url lk (l :: ls))[0]? = some (fillLink l lk) := by
          simp [fillFirst, hurl]
        rw [this]
        obtain ⟨u, t, d, ti, te⟩ := l
        refine ⟨rfl, ?_⟩
        cases t <;> cases d <;> cases ti <;> cases te <;>
          simp [fillLink, fillsOnly]
      · have : (fillFirst url lk (l :: ls))[0]? = some l := by
          simp [fillFirst, hurl]
        rw [this]
        exact ⟨rfl, fillsOnly_refl l⟩
    | succ i =>
      have htail : ls[i]? = some old := by simpa using h
      by_cases hurl : l.url = url
      · have : (fillFirst url lk (l :: ls))[i + 1]? = ls[i]? := by
          simp [fillFirst, hurl]
        rw [this, htail]
        exact ⟨rfl, fillsOnly_refl old⟩
      · have : (fillFirst url lk (l :: ls))[i + 1]? = (fillFirst url lk ls)[i]? := by
          simp [fillFirst, hurl]
        rw [this]
        exact ih i old htail

/-- Claim C7: link observations deduplicate by decoded destination URL —
the extracted `LinkRef` list never holds two entries for one URL — and a
later observation of an already-present URL leaves every entry in place
with its url unchanged, only ever filling optional fields that are null
(never overwriting a non-null field, in particular never with null). -/
theorem C7_link_dedup :
    (∀ links : List RawLink, ((postLinksOf links).map FbPostLink.url).Nodup) ∧
    (∀ (acc : List FbPostLink) (lk : RawLink) (i : Nat) (old : FbPostLink),
      acc[i]? = some old → fillStep old ((addLink acc lk)[i]?)) := by
  constructor
  · intro links
    have aux : ∀ (links : List RawLink) (acc : List FbPostLink),
        (acc.map FbPostLink.url).Nodup →
        ((links.foldl addLink acc).map FbPostLink.url).Nodup := by
      intro links
      induction links with
      | nil => intro acc h; exact h
      | cons lk links ih =>
        intro acc h
        exact ih (addLink acc lk) (nodup_addLink acc lk h)
    exact aux links [] (by simp)
  · intro acc lk i old h
    match hu : lk.u with
    | none =>
      have haddeq : addLink acc lk = acc := by simp [addLink, hu]
      rw [haddeq, h]
      exact ⟨rfl, fillsOnly_refl old⟩
    | some url =>
      by_cases hfind : ((acc.find? fun l => l.url = url)).isSome
      · have haddeq : addLink acc lk = fillFirst url lk acc := by
          simp [addLink, hu, hfind]
        rw [haddeq]
        exact fillFirst_get url lk acc i old h
      · have hlt : i < acc.length := by
          by_contra hge
          rw [List.getElem?_eq_none (Nat.le_of_not_lt hge)] at h
          cases h
        have haddeq : addLink acc lk =
            acc ++ [⟨url, lk.thumbUrl, lk.domain, lk.title, lk.text⟩] := by
          simp [addLink, hu, hfind]
        rw [haddeq, List.getElem?_append, if_pos hlt, h]
        exact ⟨rfl, fillsOnly_refl old⟩

/-- Claim C7, witness: re-observing a stored URL fills its null thumbnail
and keeps the non-null domain. -/
theorem C7_link_dedup_witness :
    fillStep ⟨"https://t.example/", none, some "d", none, none⟩
      ((addLink [⟨"https://t.example/", none, some "d", none, none⟩]
        ⟨some "https://t.example/", some "thumb", some "D2", none, none⟩)[0]?) :=
  C7_link_dedup.2 [⟨"https://t.example/", none, some "d", none, none⟩]
    ⟨some "https://t.example/", some "thumb", some "D2", none, none⟩ 0
    ⟨"https://t.example/", none, some "d", none, none⟩ (by decide)

/-! ## Lemmas for the reactions breakdown -/

/-- Object assignment sets its own key. -/
theorem lookup_insertAssoc_self (out : List (String × Nat)) (k : String) (v : Nat) :
    lookupAssoc (insertAssoc out k v) k = some v := by
  induction out with
  | nil => simp [insertAssoc, lookupAssoc]
  | cons hd rest ih =>
    obtain ⟨k₂, v₂⟩ := hd
    by_cases h : k₂ = k
    · simp [insertAssoc, lookupAssoc, h]
    · simp [insertAssoc, lookupAssoc, h, ih]

/-- Object assignment leaves other keys alone. -/
theorem lookup_insertAssoc_other (out : List (String × Nat)) (k k₂ : String) (v : Nat)
    (h : k ≠ k₂) : lookupAssoc (insertAssoc out k v) k₂ = lookupAssoc out k₂ := by
  induction out with
  | nil => simp [insertAssoc, lookupAssoc, h]
  | cons hd rest ih =>
    obtain ⟨k₃, v₃⟩ := hd
    by_cases h₃ : k₃ = k
    · subst h₃
      simp [insertAssoc, lookupAssoc, h]
    · simp [insertAssoc, lookupAssoc, h₃, ih]

/-- Folding assignments whose keys all differ from `k` does not change the
binding of `k`. -/
theorem lookup_foldl_ins_of_ne (nodes : List ReactionNode) (k : String) :
    ∀ out : List (String × Nat), (∀ n ∈ nodes, lowerStr n.reaction_type ≠ k) →
      lookupAssoc
        (nodes.foldl (fun o n => insertAssoc o (lowerStr n.reaction_type) n.reaction_count) out) k =
      lookupAssoc out k := by
  induction nodes with
  | nil => intro out h; rfl
  | cons m rest ih =>
    intro out h
    rw [List.foldl_cons, ih _ (fun n hn => h n (List.mem_cons_of_mem m hn)),
      lookup_insertAssoc_other _ _ _ _ (h m (List.mem_cons_self m rest))]

/-- With pairwise distinct lowercase names, the breakdown object binds
each name to its node count. -/
theorem breakdownMap_lookup (nodes : List ReactionNode)
    (hnodup : (nodes.map fun n => lowerStr n.reaction_type).Nodup) :
    ∀ n ∈ nodes,
      lookupAssoc (breakdownMap nodes) (lowerStr n.reaction_type) = some n.reaction_count := by
  have aux : ∀ (nodes : List ReactionNode) (out : List (String × Nat)),
      (nodes.map fun n => lowerStr n.reaction_type).Nodup →
      ∀ n ∈ nodes,
        lookupAssoc
          (nodes.foldl (fun o n => insertAssoc o (lowerStr n.reaction_type) n.reaction_count) out)
          (lowerStr n.reaction_type) = some n.reaction_count := by
    intro nodes
    induction nodes with
    | nil => intro out hnodup n hn; cases hn
    | cons m rest ih =>
      intro out hnodup n hn
      have hnotin : lowerStr m.reaction_type ∉ rest.map fun n => lowerStr n.reaction_type :=
        (List.nodup_cons.mp (by simpa using hnodup)).1
      rcases List.mem_cons.mp hn with h | h
      · subst h
        rw [List.foldl_cons,
          lookup_foldl_ins_of_ne rest (lowerStr n.reaction_type) _
            (fun x hx hcontra => hnotin (hcontra ▸ List.mem_map_of_mem _ hx)),
          lookup_insertAssoc_self]
      · exact ih _ (List.nodup_cons.mp (by simpa using hnodup)).2 n h
  exact aux nodes [] hnodup

/-- Claim C9: the reaction-type breakdown is the empty mapping whenever
the marker-bounded fragment is absent or its evaluation fails; this
sub-extraction never affects the three counting results, which are always
produced; and when the fragment evaluates to an edge list with distinct
lowercase names, the breakdown maps each lowercase reaction-type name to
its count. -/
theorem C9_reactions_breakdown (evalJs : String → Option (List ReactionNode))
    (senv : ScriptEnv) :
    (extractFragment senv.html = none →
      (getPostInfoFromScript evalJs senv).reactionsBreakdown = []) ∧
    (∀ frag, extractFragment senv.html = some frag → evalJs frag = none →
      (getPostInfoFromScript evalJs senv).reactionsBreakdown = []) ∧
    ((getPostInfoFromScript evalJs senv).comments = maxFromMatches senv.commentMatches ∧
     (getPostInfoFromScript evalJs senv).reactions = maxFromMatches senv.reactionMatches ∧
     (getPostInfoFromScript evalJs senv).shares = maxFromMatches senv.shareMatches) ∧
    (∀ frag nodes, extractFragment senv.html = some frag → evalJs frag = some nodes →
      (nodes.map fun n => lowerStr n.reaction_type).Nodup →
      ∀ n ∈ nodes,
        lookupAssoc (getPostInfoFromScript evalJs senv).reactionsBreakdown
          (lowerStr n.reaction_type) = some n.reaction_count) := by
  refine ⟨?_, ?_, ⟨rfl, rfl, rfl⟩, ?_⟩
  · intro h
    simp [getPostInfoFromScript, reactionsBreakdownOf, h, breakdownMap]
  · intro frag hfrag heval
    simp [getPostInfoFromScript, reactionsBreakdownOf, hfrag, heval, breakdownMap]
  · intro frag nodes hfrag heval hnodup n hn
    have hbd : (getPostInfoFromScript evalJs senv).reactionsBreakdown = breakdownMap nodes := by
      simp [getPostInfoFromScript, reactionsBreakdownOf, hfrag, heval]
    rw [hbd]
    exact breakdownMap_lookup nodes hnodup n hn

/-- Claim C9, witness: a concrete script text with the two markers
present and an evaluation yielding two reaction types. -/
theorem C9_reactions_breakdown_witness :
    lookupAssoc
      (getPostInfoFromScript
        (fun _ => some [⟨"LIKE", 3⟩, ⟨"WOW", 1⟩])
        ⟨"top_reactions:\x7bedges:[A]\x7d]\x7dZ", ["2", "9"], [], ["4"]⟩).reactionsBreakdown
      (lowerStr "LIKE") = some 3 :=
  (C9_reactions_breakdown (fun _ => some [⟨"LIKE", 3⟩, ⟨"WOW", 1⟩])
      ⟨"top_reactions:\x7bedges:[A]\x7d]\x7dZ", ["2", "9"], [], ["4"]⟩).2.2.2
    "[A]\x7d]" [⟨"LIKE", 3⟩, ⟨"WOW", 1⟩] rfl rfl (by decide) ⟨"LIKE", 3⟩ (by decide)

end FbScraper
